import Mathlib

/-!
Verification development for the Strange Attractors demo family.

The programs animate particles under the Lorenz system on a background
thread and hand each completed particle list to the rendering thread
through a triple buffer; a ring buffer carries user-seeded particles
into the simulation.  This file embeds the per-tick update rule of
`StrangeAttractors::updateMesh` (StrangeAttractors.cpp), together with
models of the `Threads::RingBuffer` and `Threads::TripleBuffer` channels
the code uses (their implementations live in the Vrui toolkit, so they
are modelled from the specification's contracts), and proves the stated
properties about them.

GL float arithmetic is modelled in exact rational arithmetic; the GLubyte
color channels are modelled as natural numbers, where the source's
`channel -= .1` on a GLubyte truncates to a decrement of 1 for a positive
channel and to 0 for a zero channel, which is Nat subtraction by 1.
-/

/-- A 3-component position vector (the source's `float position[3]`). -/
structure Vec3 where
  x : ℚ
  y : ℚ
  z : ℚ
  deriving DecidableEq

/-- An RGBA color (the source's `GLubyte color[4]`, indices 0=r,1=g,2=b,3=a). -/
structure Color4 where
  r : ℕ
  g : ℕ
  b : ℕ
  a : ℕ
  deriving DecidableEq

/-- The source's `ParticleVertex`: a color and a position. -/
structure ParticleVertex where
  color : Color4
  position : Vec3
  deriving DecidableEq

/-- The source's `ParticleList` (`std::vector<ParticleVertex>`). -/
abbrev ParticleList := List ParticleVertex

/-- The source's `TimeList` (`std::vector<float>` of expiry times). -/
abbrev TimeList := List ℚ

/-- The source's snapshot struct `ParticleTimeList`: exactly a particle list
and the parallel list of expiry times, nothing else. -/
structure ParticleTimeList where
  particleList : ParticleList
  timeList : TimeList
  deriving DecidableEq

/-- `float s = 10` in `updateMesh`. -/
def sigmaC : ℚ := 10

/-- `float r = 28` in `updateMesh`. -/
def rhoC : ℚ := 28

/-- `float b = 2.667` in `updateMesh`. -/
def betaC : ℚ := 2667 / 1000

/-- `float t = 0.003` in `updateMesh`. -/
def tDelta : ℚ := 3 / 1000

/-- `float timeDecay` , set to 10 in the constructor: a particle's lifespan. -/
def timeDecay : ℚ := 10

/-- The Lorenz derivative `dot` computed in `updateMesh`:
`dot[0]=s*(y-x); dot[1]=x*(r-z)-y; dot[2]=(x*y)-(b*z)`. -/
def lorenzDot (p : Vec3) : Vec3 :=
  ⟨sigmaC * (p.y - p.x), p.x * (rhoC - p.z) - p.y, p.x * p.y - betaC * p.z⟩

/-- The color fade in `updateMesh`: decrement green if positive, else red if
positive, else blue.  On a GLubyte, `v -= .1` truncates to `v - 1` when
`v ≥ 1` and to `0` when `v = 0`, which is Nat subtraction by 1. -/
def fadeColor (c : Color4) : Color4 :=
  if 0 < c.g then { c with g := c.g - 1 }
  else if 0 < c.r then { c with r := c.r - 1 }
  else { c with b := c.b - 1 }

/-- The per-particle body of `updateMesh`'s survivor loop: fade the color and
apply one explicit-Euler step `position += dot*t` of the Lorenz system. -/
def stepParticle (pv : ParticleVertex) : ParticleVertex :=
  { color := fadeColor pv.color,
    position := ⟨pv.position.x + (lorenzDot pv.position).x * tDelta,
                 pv.position.y + (lorenzDot pv.position).y * tDelta,
                 pv.position.z + (lorenzDot pv.position).z * tDelta⟩ }

/-- The survivor loop of `updateMesh`: walk the previous snapshot's particle
and time lists in lockstep and keep (stepped) exactly the particles whose
expiry `tp` satisfies `tp > now` (`tp > Vrui::getApplicationTime()`). -/
def surviveStep (now : ℚ) : List (ParticleVertex × ℚ) → ParticleList × TimeList
  | [] => ([], [])
  | (pv, tp) :: rest =>
    if now < tp then
      (stepParticle pv :: (surviveStep now rest).1, tp :: (surviveStep now rest).2)
    else surviveStep now rest

/-- Modelled from the spec: the `Threads::RingBuffer` bounded SPSC queue
(`BoundedQueue` in the spec), whose implementation is in the Vrui toolkit,
not in this repository.  A fixed-capacity circular array with a head index
and an occupancy count; entries live at indices `(head+i) % cap`. -/
structure RingBuffer (T : Type) where
  cap : ℕ
  arr : ℕ → T
  head : ℕ
  count : ℕ

/-- Modelled from the spec: enqueue at the tail when capacity allows (a full
queue makes the producer wait, so the write does not take effect). -/
def RingBuffer.write {T : Type} (q : RingBuffer T) (v : T) : RingBuffer T :=
  if q.count < q.cap then
    { q with arr := Function.update q.arr ((q.head + q.count) % q.cap) v,
             count := q.count + 1 }
  else q

/-- Modelled from the spec: dequeue from the head when non-empty. -/
def RingBuffer.read {T : Type} (q : RingBuffer T) : Option (T × RingBuffer T) :=
  if 0 < q.count then
    some (q.arr (q.head % q.cap),
          { q with head := (q.head + 1) % q.cap, count := q.count - 1 })
  else none

/-- The logical FIFO content of the ring buffer, head first. -/
def RingBuffer.toList {T : Type} (q : RingBuffer T) : List T :=
  (List.range q.count).map fun i => q.arr ((q.head + i) % q.cap)

/-- Pop `n` times in succession, collecting the dequeued items in order. -/
def RingBuffer.readN {T : Type} (q : RingBuffer T) : ℕ → List T × RingBuffer T
  | 0 => ([], q)
  | n + 1 =>
    match q.read with
    | none => ([], q)
    | some (v, q1) =>
      let r := q1.readN n
      (v :: r.1, r.2)

/-- The drain loop at the end of `updateMesh`:
`while(!inputParticles.empty()) { particleList.push_back(inputParticles.read());
timeList.push_back(getApplicationTime()+timeDecay); }`.  The loop runs once
per occupied entry, so the occupancy count at entry bounds its iterations. -/
def drainLoop (now lifespan : ℚ) :
    ℕ → RingBuffer ParticleVertex → ParticleTimeList →
    ParticleTimeList × RingBuffer ParticleVertex
  | 0, q, ptl => (ptl, q)
  | fuel + 1, q, ptl =>
    match q.read with
    | none => (ptl, q)
    | some (pv, q1) =>
      drainLoop now lifespan fuel q1
        ⟨ptl.particleList ++ [pv], ptl.timeList ++ [now + lifespan]⟩

/-- `StrangeAttractors::updateMesh`: step the survivors of the previous
snapshot, then drain the input ring buffer, appending each queued particle
with expiry `now + lifespan`.  Returns the new snapshot and the drained
queue. -/
def updateMesh (old : ParticleTimeList) (q : RingBuffer ParticleVertex)
    (now lifespan : ℚ) : ParticleTimeList × RingBuffer ParticleVertex :=
  drainLoop now lifespan q.count q
    ⟨(surviveStep now (old.particleList.zip old.timeList)).1,
     (surviveStep now (old.particleList.zip old.timeList)).2⟩

/-- A default particle (zero color, origin position). -/
def pvDefault : ParticleVertex := ⟨⟨0, 0, 0, 0⟩, ⟨0, 0, 0⟩⟩

/-- The empty input ring buffer with the constructor's capacity
(`inputParticles(100)`). -/
def emptyRB : RingBuffer ParticleVertex := ⟨100, fun _ => pvDefault, 0, 0⟩

/-- The particle at position (1,1,1) used by the spec's worked example. -/
def pv111 : ParticleVertex := ⟨⟨255, 255, 255, 255⟩, ⟨1, 1, 1⟩⟩

/-- Modelled from the spec: the `Threads::TripleBuffer` snapshot channel
(`SnapshotChannel` in the spec), whose implementation is in the Vrui
toolkit, not in this repository.  Three storage slots with three rotating
roles: the producer's private write slot, the most recently posted slot,
and the consumer's locked read slot; a flag records whether a value has
been posted and not yet locked. -/
structure TripleBuffer (T : Type) where
  slots : Fin 3 → T
  writeIdx : Fin 3
  postedIdx : Fin 3
  readIdx : Fin 3
  fresh : Bool

/-- The producer stores a value into its private write slot (the effect of
filling the slot returned by `startNewValue`). -/
def TripleBuffer.writeSlot {T : Type} (tb : TripleBuffer T) (v : T) :
    TripleBuffer T :=
  { tb with slots := Function.update tb.slots tb.writeIdx v }

/-- `postNewValue`: atomically exchange the write and posted roles and mark
the posted value as new. -/
def TripleBuffer.postNewValue {T : Type} (tb : TripleBuffer T) :
    TripleBuffer T :=
  { tb with writeIdx := tb.postedIdx, postedIdx := tb.writeIdx, fresh := true }

/-- The role exchange performed by a successful `lockNewValue`: the consumer
takes the posted slot as its read slot and releases its old read slot. -/
def TripleBuffer.lockStep {T : Type} (tb : TripleBuffer T) : TripleBuffer T :=
  { tb with readIdx := tb.postedIdx, postedIdx := tb.readIdx, fresh := false }

/-- `lockNewValue`: succeed exactly when a value was posted since the last
successful lock. -/
def TripleBuffer.lockNewValue {T : Type} (tb : TripleBuffer T) :
    Bool × TripleBuffer T :=
  if tb.fresh then (true, tb.lockStep) else (false, tb)

/-- `getLockedValue`: the content of the consumer's read slot. -/
def TripleBuffer.getLockedValue {T : Type} (tb : TripleBuffer T) : T :=
  tb.slots tb.readIdx

/-- Role exclusivity: the write, posted and read roles sit on three distinct
slots. -/
def TripleBuffer.rolesDistinct {T : Type} (tb : TripleBuffer T) : Prop :=
  tb.writeIdx ≠ tb.postedIdx ∧ tb.postedIdx ≠ tb.readIdx ∧
    tb.writeIdx ≠ tb.readIdx

/-- One atomic step of either thread on the channel: the producer writes its
slot or posts, the consumer attempts a lock. -/
inductive BufEvent (T : Type) where
  | write (v : T)
  | post
  | lock

/-- Whether the event is the producer's. -/
def BufEvent.isProducer {T : Type} : BufEvent T → Bool
  | .write _ => true
  | .post => true
  | .lock => false

/-- Apply one event to the channel. -/
def TripleBuffer.applyEvent {T : Type} (tb : TripleBuffer T) :
    BufEvent T → TripleBuffer T
  | .write v => tb.writeSlot v
  | .post => tb.postNewValue
  | .lock => tb.lockNewValue.2

/-- Run a sequence of interleaved events. -/
def TripleBuffer.runEvents {T : Type} (tb : TripleBuffer T) :
    List (BufEvent T) → TripleBuffer T
  | [] => tb
  | e :: evs => (tb.applyEvent e).runEvents evs

/-- Whether a posted value is pending after a sequence of events, starting
from pending state `b`: a post with no later lock leaves one pending. -/
def freshAfter {T : Type} (b : Bool) (evs : List (BufEvent T)) : Bool :=
  evs.foldl
    (fun acc e => match e with
      | BufEvent.write _ => acc
      | BufEvent.post => true
      | BufEvent.lock => false) b

/-- The consumer-side state of `StrangeAttractors::frame`: the channel plus
the vertex buffer source last handed to the renderer. -/
structure RenderState (T : Type) where
  tb : TripleBuffer T
  vertexSource : T

/-- `StrangeAttractors::frame`: lock a new value if one is pending and point
the vertex buffer at it; otherwise leave the vertex source unchanged. -/
def RenderState.frame {T : Type} (rs : RenderState T) :
    Bool × RenderState T :=
  if rs.tb.fresh then
    (true, ⟨rs.tb.lockStep, (rs.tb.lockStep).getLockedValue⟩)
  else (false, rs)

/-- The frame call made after a sequence of channel events. -/
def frameAfter {T : Type} (rs : RenderState T) (evs : List (BufEvent T)) :
    Bool × RenderState T :=
  RenderState.frame ⟨rs.tb.runEvents evs, rs.vertexSource⟩

/-- A concrete queue of naturals for exercising the FIFO contract. -/
def rbW : RingBuffer ℕ := ⟨100, fun _ => 0, 0, 0⟩

/-- A concrete channel state with distinct roles and nothing pending. -/
def tbW : TripleBuffer ℕ := ⟨fun _ => 0, 0, 1, 2, false⟩

/-- A concrete producer-only event sequence. -/
def evsW : List (BufEvent ℕ) := [BufEvent.write 5, BufEvent.post, BufEvent.write 7]

/-- The survivor loop keeps, stepped, exactly the particles whose expiry is
still in the future, in their original relative order. -/
lemma surviveStep_eq (now : ℚ) (l : List (ParticleVertex × ℚ)) :
    surviveStep now l =
      ((l.filter fun pr => decide (now < pr.2)).map fun pr => stepParticle pr.1,
       (l.filter fun pr => decide (now < pr.2)).map fun pr => pr.2) := by
  induction l with
  | nil => rfl
  | cons hd tl ih =>
    obtain ⟨pv, tp⟩ := hd
    by_cases h : now < tp
    · simp [surviveStep, h, List.filter_cons, ih]
    · simp [surviveStep, h, List.filter_cons, ih]

lemma RingBuffer.toList_of_count_zero {T : Type} (q : RingBuffer T)
    (h : q.count = 0) : q.toList = [] := by
  simp [toList, h]

lemma RingBuffer.read_eq_none {T : Type} (q : RingBuffer T) (h : q.count = 0) :
    q.read = none := by
  simp [read, h]

lemma RingBuffer.read_eq_some {T : Type} (q : RingBuffer T) (h : 0 < q.count) :
    q.read = some (q.arr (q.head % q.cap),
      { q with head := (q.head + 1) % q.cap, count := q.count - 1 }) := by
  simp [read, h]

lemma RingBuffer.toList_cons {T : Type} (q : RingBuffer T) (h : 0 < q.count) :
    q.toList = q.arr (q.head % q.cap) ::
      RingBuffer.toList
        { q with head := (q.head + 1) % q.cap, count := q.count - 1 } := by
  obtain ⟨n, hn⟩ : ∃ n, q.count = n + 1 := ⟨q.count - 1, by omega⟩
  unfold toList
  simp only [hn, Nat.add_sub_cancel, List.range_succ_eq_map, List.map_cons,
    List.map_map, Nat.add_zero]
  congr 1
  apply List.map_congr_left
  intro i _
  have he : q.head + 1 + i = q.head + Nat.succ i := by omega
  rw [Function.comp_apply, Nat.mod_add_mod, he]

/-- Distinct offsets inside the capacity window land on distinct slots. -/
lemma mod_window_ne {cap hd i j : ℕ} (hi : i < cap) (hj : j < cap)
    (hij : i ≠ j) : (hd + i) % cap ≠ (hd + j) % cap := by
  intro he
  have hm : i ≡ j [MOD cap] := (Nat.ModEq.refl hd).add_left_cancel he
  rw [Nat.ModEq, Nat.mod_eq_of_lt hi, Nat.mod_eq_of_lt hj] at hm
  exact hij hm

lemma RingBuffer.write_toList {T : Type} (q : RingBuffer T) (v : T)
    (h : q.count < q.cap) :
    (q.write v).toList = q.toList ++ [v] ∧ (q.write v).count = q.count + 1 := by
  constructor
  · simp only [write, if_pos h, toList, List.range_succ, List.map_append,
      List.map_cons, List.map_nil]
    congr 1
    · apply List.map_congr_left
      intro i hi
      rw [List.mem_range] at hi
      exact Function.update_noteq
        (mod_window_ne (lt_trans hi h) h (by omega)) v q.arr
    · simp
  · simp [write, if_pos h]

/-- Popping as many times as the occupancy count returns exactly the FIFO
content in order and leaves the queue empty. -/
lemma RingBuffer.readN_spec {T : Type} :
    ∀ (n : ℕ) (q : RingBuffer T), q.count = n →
      (q.readN n).1 = q.toList ∧ (q.readN n).2.count = 0
  | 0, q, h => by
    refine ⟨?_, ?_⟩
    · rw [toList_of_count_zero q h]
      rfl
    · exact h
  | n + 1, q, h => by
    have hpos : 0 < q.count := by omega
    have hread := read_eq_some q hpos
    have h1 : (RingBuffer.mk q.cap q.arr ((q.head + 1) % q.cap)
        (q.count - 1) : RingBuffer T).count = n := by
      simp only []
      omega
    have ih := readN_spec n _ h1
    rw [toList_cons q hpos]
    refine ⟨?_, ?_⟩
    · show (match q.read with
        | none => (([] : List T), q)
        | some (v, q1) => (v :: (q1.readN n).1, (q1.readN n).2)).1 = _
      rw [hread]
      simp only []
      rw [ih.1]
    · show (match q.read with
        | none => (([] : List T), q)
        | some (v, q1) => (v :: (q1.readN n).1, (q1.readN n).2)).2.count = 0
      rw [hread]
      simp only []
      exact ih.2

/-- The drain loop, run with the occupancy count as its bound, appends the
queue's FIFO content to the particle list, one expiry `now + lifespan` per
item to the time list, and leaves the queue empty. -/
lemma drainLoop_spec (now L : ℚ) :
    ∀ (n : ℕ) (q : RingBuffer ParticleVertex) (ptl : ParticleTimeList),
      q.count = n →
      (drainLoop now L n q ptl).1.particleList = ptl.particleList ++ q.toList ∧
      (drainLoop now L n q ptl).1.timeList
          = ptl.timeList ++ q.toList.map (fun _ => now + L) ∧
      (drainLoop now L n q ptl).2.count = 0
  | 0, q, h, hc => by
    rw [RingBuffer.toList_of_count_zero q hc]
    exact ⟨by simp [drainLoop], by simp [drainLoop], hc⟩
  | n + 1, q, ptl, hc => by
    have hpos : 0 < q.count := by omega
    have hread := RingBuffer.read_eq_some q hpos
    have h1 : (RingBuffer.mk q.cap q.arr ((q.head + 1) % q.cap)
        (q.count - 1) : RingBuffer ParticleVertex).count = n := by
      simp only []
      omega
    have ih := drainLoop_spec now L n _
      ⟨ptl.particleList ++ [q.arr (q.head % q.cap)], ptl.timeList ++ [now + L]⟩ h1
    rw [RingBuffer.toList_cons q hpos]
    show (match q.read with
      | none => (ptl, q)
      | some (pv, q1) => drainLoop now L n q1
          ⟨ptl.particleList ++ [pv], ptl.timeList ++ [now + L]⟩).1.particleList = _
      ∧ _ ∧ _
    rw [hread]
    simp only []
    refine ⟨?_, ?_, ?_⟩
    · rw [ih.1]
      simp
    · show (match q.read with
        | none => (ptl, q)
        | some (pv, q1) => drainLoop now L n q1
            ⟨ptl.particleList ++ [pv], ptl.timeList ++ [now + L]⟩).1.timeList = _
      rw [hread]
      simp only []
      rw [ih.2.1]
      simp
    · show (match q.read with
        | none => (ptl, q)
        | some (pv, q1) => drainLoop now L n q1
            ⟨ptl.particleList ++ [pv], ptl.timeList ++ [now + L]⟩).2.count = 0
      rw [hread]
      simp only []
      exact ih.2.2

/-- `updateMesh` output: stepped survivors followed by the drained queue
content, with expiry `now + lifespan` for each injected particle; the queue
ends the tick empty. -/
lemma updateMesh_spec (old : ParticleTimeList) (q : RingBuffer ParticleVertex)
    (now L : ℚ) :
    (updateMesh old q now L).1.particleList
        = (surviveStep now (old.particleList.zip old.timeList)).1 ++ q.toList ∧
    (updateMesh old q now L).1.timeList
        = (surviveStep now (old.particleList.zip old.timeList)).2
          ++ q.toList.map (fun _ => now + L) ∧
    (updateMesh old q now L).2.count = 0 := by
  have hd := drainLoop_spec now L q.count q
    ⟨(surviveStep now (old.particleList.zip old.timeList)).1,
     (surviveStep now (old.particleList.zip old.timeList)).2⟩ rfl
  exact hd

lemma TripleBuffer.rolesDistinct_applyEvent {T : Type} (tb : TripleBuffer T)
    (e : BufEvent T) (h : tb.rolesDistinct) :
    (tb.applyEvent e).rolesDistinct := by
  obtain ⟨h1, h2, h3⟩ := h
  cases e with
  | write v => exact ⟨h1, h2, h3⟩
  | post =>
    exact ⟨fun he => h1 he.symm, fun he => h3 he, h2⟩
  | lock =>
    unfold applyEvent lockNewValue
    by_cases hf : tb.fresh
    · simp only [hf, if_pos, lockStep]
      exact ⟨h3, fun he => h2 he.symm, h1⟩
    · simp only [hf]
      exact ⟨h1, h2, h3⟩

lemma TripleBuffer.getLockedValue_applyEvent {T : Type} (tb : TripleBuffer T)
    (e : BufEvent T) (h : tb.rolesDistinct) (hp : e.isProducer = true) :
    (tb.applyEvent e).getLockedValue = tb.getLockedValue := by
  cases e with
  | write v =>
    unfold applyEvent writeSlot getLockedValue
    exact Function.update_noteq (fun he => h.2.2 he.symm) v tb.slots
  | post => rfl
  | lock => simp [BufEvent.isProducer] at hp

lemma TripleBuffer.runEvents_producer {T : Type} (tb : TripleBuffer T)
    (evs : List (BufEvent T)) (h : tb.rolesDistinct)
    (hp : ∀ e ∈ evs, e.isProducer = true) :
    (tb.runEvents evs).getLockedValue = tb.getLockedValue ∧
      (tb.runEvents evs).rolesDistinct := by
  induction evs generalizing tb with
  | nil => exact ⟨rfl, h⟩
  | cons e evs ih =>
    have he : e.isProducer = true := hp e (by simp)
    have hrest : ∀ x ∈ evs, BufEvent.isProducer x = true :=
      fun x hx => hp x (by simp [hx])
    have h1 := tb.rolesDistinct_applyEvent e h
    have := ih (tb.applyEvent e) h1 hrest
    exact ⟨this.1.trans (tb.getLockedValue_applyEvent e h he), this.2⟩

lemma TripleBuffer.fresh_applyEvent {T : Type} (tb : TripleBuffer T)
    (e : BufEvent T) :
    (tb.applyEvent e).fresh
      = (match e with
          | BufEvent.write _ => tb.fresh
          | BufEvent.post => true
          | BufEvent.lock => false) := by
  cases e with
  | write v => rfl
  | post => rfl
  | lock =>
    unfold applyEvent lockNewValue
    by_cases hf : tb.fresh
    · simp [hf, lockStep]
    · simp [hf]

lemma TripleBuffer.fresh_runEvents {T : Type} (tb : TripleBuffer T)
    (evs : List (BufEvent T)) :
    (tb.runEvents evs).fresh = freshAfter tb.fresh evs := by
  induction evs generalizing tb with
  | nil => rfl
  | cons e evs ih =>
    show ((tb.applyEvent e).runEvents evs).fresh = _
    rw [ih]
    unfold freshAfter
    rw [List.foldl_cons, tb.fresh_applyEvent e]

lemma TripleBuffer.runEvents_append {T : Type} (tb : TripleBuffer T)
    (l1 l2 : List (BufEvent T)) :
    tb.runEvents (l1 ++ l2) = (tb.runEvents l1).runEvents l2 := by
  induction l1 generalizing tb with
  | nil => rfl
  | cons e l1 ih =>
    show ((tb.applyEvent e).runEvents (l1 ++ l2)) = _
    exact ih (tb.applyEvent e)

/-- Claim C3 counterexample: the snapshot struct `ParticleTimeList` carries
only the particle and time lists, and a tick from the empty snapshot with an
empty queue republishes identical content, so no generation counter carried
by the snapshot can equal the previous snapshot's counter plus one at every
publish. -/
theorem C3_counterexample :
    (updateMesh ⟨[], []⟩ emptyRB 0 timeDecay).1 = ⟨[], []⟩
    ∧ ¬ ∃ gen : ParticleTimeList → ℕ,
        ∀ (old : ParticleTimeList) (q : RingBuffer ParticleVertex)
          (now L : ℚ), gen (updateMesh old q now L).1 = gen old + 1 := by
  refine ⟨rfl, ?_⟩
  rintro ⟨gen, hg⟩
  have h := hg ⟨[], []⟩ emptyRB 0 timeDecay
  have hfix : (updateMesh ⟨[], []⟩ emptyRB 0 timeDecay).1
      = (⟨[], []⟩ : ParticleTimeList) := rfl
  rw [hfix] at h
  omega

/-- Claim C3 (amended): a published snapshot is exactly its particle list and
time list — it carries no generation counter — and successive publishes can
produce identical content: the empty snapshot is a fixed point of the tick.
Publishes are ordered by the channel's posting sequence, not by any counter
carried in the snapshot. -/
theorem C3_no_generation_field :
    (∀ now L : ℚ, (updateMesh ⟨[], []⟩ emptyRB now L).1 = ⟨[], []⟩)
    ∧ (∀ a b : ParticleTimeList,
        a.particleList = b.particleList → a.timeList = b.timeList → a = b) := by
  constructor
  · intro now L
    rfl
  · intro a b h1 h2
    cases a
    cases b
    simp_all

/-- Claim C4: for a surviving particle the tick applies `fadeColor`, which
decrements exactly the first still-positive channel in the order green, red,
blue by the fixed amount 1 (the GLubyte effect of `-= .1`), leaves the other
channels and alpha unchanged, floors every channel at 0 (an all-zero color is
unchanged), and never wraps a channel upward. -/
theorem C4_color_fade (pv : ParticleVertex) (c : Color4) :
    (stepParticle pv).color = fadeColor pv.color
    ∧ (0 < c.g → fadeColor c = ⟨c.r, c.g - 1, c.b, c.a⟩)
    ∧ (c.g = 0 → 0 < c.r → fadeColor c = ⟨c.r - 1, 0, c.b, c.a⟩)
    ∧ (c.g = 0 → c.r = 0 → fadeColor c = ⟨0, 0, c.b - 1, c.a⟩)
    ∧ (c.g = 0 → c.r = 0 → c.b = 0 → fadeColor c = ⟨0, 0, 0, c.a⟩)
    ∧ (fadeColor c).r ≤ c.r ∧ (fadeColor c).g ≤ c.g
    ∧ (fadeColor c).b ≤ c.b ∧ (fadeColor c).a = c.a := by
  refine ⟨rfl, ?_, ?_, ?_, ?_, ?_, ?_, ?_, ?_⟩
  · intro hg
    simp [fadeColor, hg]
  · intro hg hr
    simp [fadeColor, hg, hr]
  · intro hg hr
    simp [fadeColor, hg, hr]
  · intro hg hr hb
    simp [fadeColor, hg, hr, hb]
  · by_cases hg : 0 < c.g <;> by_cases hr : 0 < c.r <;>
      simp [fadeColor, hg, hr]
  · by_cases hg : 0 < c.g <;> by_cases hr : 0 < c.r <;>
      simp [fadeColor, hg, hr]
  · by_cases hg : 0 < c.g <;> by_cases hr : 0 < c.r <;>
      simp [fadeColor, hg, hr]
  · by_cases hg : 0 < c.g <;> by_cases hr : 0 < c.r <;>
      simp [fadeColor, hg, hr]

/-- Claim C6: one tick appends every queued particle, in queue order, after
the stepped survivors, gives each injected particle the expiry
`now + lifespan`, and leaves the input queue empty. -/
theorem C6_drain_to_empty (old : ParticleTimeList)
    (q : RingBuffer ParticleVertex) (now L : ℚ) :
    (updateMesh old q now L).1.particleList
        = (surviveStep now (old.particleList.zip old.timeList)).1 ++ q.toList
    ∧ (updateMesh old q now L).1.timeList
        = (surviveStep now (old.particleList.zip old.timeList)).2
          ++ q.toList.map (fun _ => now + L)
    ∧ (updateMesh old q now L).2.count = 0 :=
  updateMesh_spec old q now L

/-- Claim C10: the new snapshot is the stepped survivors — a filter of the
previous snapshot, hence in their previous relative order — followed by all
particles injected from the queue, strictly after every survivor. -/
theorem C10_survivors_then_injected (old : ParticleTimeList)
    (q : RingBuffer ParticleVertex) (now L : ℚ) :
    (updateMesh old q now L).1.particleList
        = (((old.particleList.zip old.timeList).filter
              fun pr => decide (now < pr.2)).map fun pr => stepParticle pr.1)
          ++ q.toList
    ∧ ((((old.particleList.zip old.timeList).filter
          fun pr => decide (now < pr.2)).map fun pr => stepParticle pr.1).Sublist
        ((old.particleList.zip old.timeList).map fun pr => stepParticle pr.1)) := by
  constructor
  · rw [(updateMesh_spec old q now L).1, surviveStep_eq]
  · exact ((old.particleList.zip old.timeList).filter_sublist).map _

lemma RingBuffer.write_cap {T : Type} (q : RingBuffer T) (v : T) :
    (q.write v).cap = q.cap := by
  unfold write
  split <;> rfl

/-- One tick of a single-particle snapshot with an empty queue: the particle
is stepped when its expiry is in the future, dropped otherwise. -/
lemma singleton_tick (pv : ParticleVertex) (te now L : ℚ) :
    (updateMesh ⟨[pv], [te]⟩ emptyRB now L).1
        = if now < te then ⟨[stepParticle pv], [te]⟩ else ⟨[], []⟩ := by
  have hu := updateMesh_spec ⟨[pv], [te]⟩ emptyRB now L
  have heta : (updateMesh ⟨[pv], [te]⟩ emptyRB now L).1
      = ⟨(updateMesh ⟨[pv], [te]⟩ emptyRB now L).1.particleList,
         (updateMesh ⟨[pv], [te]⟩ emptyRB now L).1.timeList⟩ := rfl
  rw [heta, hu.1, hu.2.1]
  by_cases h : now < te
  · simp [surviveStep, h, emptyRB, RingBuffer.toList]
  · simp [surviveStep, h, emptyRB, RingBuffer.toList]

/-- Claim C1: a particle whose expiry is in the future is carried into the
next snapshot as exactly one explicit-Euler Lorenz step of its position,
with σ=10, ρ=28, β=2.667, Δt=0.003; from (1,1,1) the derivatives are
(0, 26, −1.667) and the new position is (1, 1.078, 0.994999), within 10⁻⁵
of (1.0, 1.078, 0.995). -/
theorem C1_lorenz_euler_step (pv : ParticleVertex) (te now L : ℚ)
    (h : now < te) :
    (updateMesh ⟨[pv], [te]⟩ emptyRB now L).1.particleList = [stepParticle pv]
    ∧ (stepParticle pv).position
        = ⟨pv.position.x + sigmaC * (pv.position.y - pv.position.x) * tDelta,
           pv.position.y
             + (pv.position.x * (rhoC - pv.position.z) - pv.position.y) * tDelta,
           pv.position.z
             + (pv.position.x * pv.position.y - betaC * pv.position.z) * tDelta⟩
    ∧ lorenzDot ⟨1, 1, 1⟩ = ⟨0, 26, -(1667 / 1000)⟩
    ∧ (stepParticle pv111).position = ⟨1, 1078 / 1000, 994999 / 1000000⟩
    ∧ |(stepParticle pv111).position.z - 995 / 1000| ≤ 1 / 100000 := by
  refine ⟨?_, rfl, ?_, ?_, ?_⟩
  · rw [singleton_tick pv te now L, if_pos h]
  · simp [lorenzDot, sigmaC, rhoC, betaC, Vec3.mk.injEq]
    norm_num
  · simp [stepParticle, lorenzDot, pv111, sigmaC, rhoC, betaC, tDelta,
      Vec3.mk.injEq]
    norm_num
  · have hz : (stepParticle pv111).position.z = 994999 / 1000000 := by
      simp [stepParticle, lorenzDot, pv111, sigmaC, rhoC, betaC, tDelta]
      norm_num
    rw [hz, abs_le]
    norm_num

/-- Witness for C1 at the spec's worked example. -/
theorem C1_lorenz_euler_step_witness :
    (updateMesh ⟨[pv111], [1]⟩ emptyRB 0 timeDecay).1.particleList
        = [stepParticle pv111]
    ∧ (stepParticle pv111).position
        = ⟨pv111.position.x
             + sigmaC * (pv111.position.y - pv111.position.x) * tDelta,
           pv111.position.y
             + (pv111.position.x * (rhoC - pv111.position.z)
                 - pv111.position.y) * tDelta,
           pv111.position.z
             + (pv111.position.x * pv111.position.y
                 - betaC * pv111.position.z) * tDelta⟩
    ∧ lorenzDot ⟨1, 1, 1⟩ = ⟨0, 26, -(1667 / 1000)⟩
    ∧ (stepParticle pv111).position = ⟨1, 1078 / 1000, 994999 / 1000000⟩
    ∧ |(stepParticle pv111).position.z - 995 / 1000| ≤ 1 / 100000 :=
  C1_lorenz_euler_step pv111 1 0 timeDecay (by norm_num)

/-- Claim C5: a particle is carried into the next snapshot exactly when its
expiry is still in the future; a particle injected with lifespan `L` appears
in the very tick that drains it, with expiry `now + L`, and on a later tick
at time `now2` it is kept exactly when `now2 < now + L` — dropped from the
first tick at or past its expiry. -/
theorem C5_expiry_lifecycle (pv : ParticleVertex) (te now now2 L : ℚ) :
    ((updateMesh ⟨[pv], [te]⟩ emptyRB now L).1
        = if now < te then ⟨[stepParticle pv], [te]⟩ else ⟨[], []⟩)
    ∧ (updateMesh ⟨[], []⟩ (emptyRB.write pv) now L).1 = ⟨[pv], [now + L]⟩
    ∧ ((updateMesh ⟨[pv], [now + L]⟩ emptyRB now2 L).1
        = if now2 < now + L then ⟨[stepParticle pv], [now + L]⟩ else ⟨[], []⟩) :=
  ⟨singleton_tick pv te now L, rfl, singleton_tick pv (now + L) now2 L⟩

/-- Claim C2: while the producer writes and posts, the consumer's locked
snapshot content never changes, the three slot roles stay pairwise distinct,
and in particular the slot being written is never the slot being read. -/
theorem C2_snapshot_immutable {T : Type} (tb : TripleBuffer T)
    (evs : List (BufEvent T)) (h : tb.rolesDistinct)
    (hp : ∀ e ∈ evs, e.isProducer = true) :
    (tb.runEvents evs).getLockedValue = tb.getLockedValue
    ∧ (tb.runEvents evs).rolesDistinct
    ∧ (tb.runEvents evs).writeIdx ≠ (tb.runEvents evs).readIdx := by
  have hrun := tb.runEvents_producer evs h hp
  exact ⟨hrun.1, hrun.2, hrun.2.2.2⟩

/-- Witness for C2: a concrete channel and a concrete producer-only run. -/
theorem C2_snapshot_immutable_witness :
    (tbW.runEvents evsW).getLockedValue = tbW.getLockedValue
    ∧ (tbW.runEvents evsW).rolesDistinct
    ∧ (tbW.runEvents evsW).writeIdx ≠ (tbW.runEvents evsW).readIdx :=
  C2_snapshot_immutable tbW evsW ⟨by decide, by decide, by decide⟩
    (by
      intro e he
      simp only [evsW, List.mem_cons, List.not_mem_nil, or_false] at he
      rcases he with rfl | rfl | rfl <;> rfl)

/-- Claim C7: the bounded queue is strictly FIFO: from an empty queue with
room, pushing `a`, `b`, `c` and popping three times yields `a`, `b`, `c`
and leaves the queue empty. -/
theorem C7_queue_fifo {T : Type} (q : RingBuffer T) (a b c : T)
    (h0 : q.count = 0) (hcap : 3 ≤ q.cap) :
    (((q.write a).write b).write c).toList = [a, b, c]
    ∧ ((((q.write a).write b).write c).readN 3).1 = [a, b, c]
    ∧ ((((q.write a).write b).write c).readN 3).2.count = 0 := by
  have e0 : q.toList = [] := q.toList_of_count_zero h0
  have c1 : q.count < q.cap := by omega
  have h1 := q.write_toList a c1
  have c2 : (q.write a).count < (q.write a).cap := by
    rw [h1.2, q.write_cap a]
    omega
  have h2 := (q.write a).write_toList b c2
  have c3 : ((q.write a).write b).count < ((q.write a).write b).cap := by
    rw [h2.2, h1.2, (q.write a).write_cap b, q.write_cap a]
    omega
  have h3 := ((q.write a).write b).write_toList c c3
  have htl : (((q.write a).write b).write c).toList = [a, b, c] := by
    rw [h3.1, h2.1, h1.1, e0]
    rfl
  have hcnt : (((q.write a).write b).write c).count = 3 := by
    rw [h3.2, h2.2, h1.2, h0]
  have hr := RingBuffer.readN_spec 3 _ hcnt
  exact ⟨htl, by rw [hr.1, htl], hr.2⟩

/-- Witness for C7: naturals 1, 2, 3 through the concrete capacity-100
queue. -/
theorem C7_queue_fifo_witness :
    (((rbW.write 1).write 2).write 3).toList = [1, 2, 3]
    ∧ ((((rbW.write 1).write 2).write 3).readN 3).1 = [1, 2, 3]
    ∧ ((((rbW.write 1).write 2).write 3).readN 3).2.count = 0 :=
  C7_queue_fifo rbW 1 2 3 rfl (by decide)

/-- Claim C9: a frame call succeeds exactly when a value was posted since
the last successful lock; on failure the channel and the renderer's vertex
source are left unchanged; on success after a write and post, the vertex
source becomes the value just posted. -/
theorem C9_frame_latest {T : Type} (rs : RenderState T)
    (evs : List (BufEvent T)) (v : T) :
    ((frameAfter rs evs).1 = freshAfter rs.tb.fresh evs)
    ∧ ((frameAfter rs evs).1 = false →
        (frameAfter rs evs).2 = ⟨rs.tb.runEvents evs, rs.vertexSource⟩)
    ∧ (frameAfter rs (evs ++ [BufEvent.write v, BufEvent.post])).1 = true
    ∧ (frameAfter rs (evs ++ [BufEvent.write v, BufEvent.post])).2.vertexSource
        = v := by
  have hb : ∀ rs2 : RenderState T, (rs2.frame).1 = rs2.tb.fresh := by
    intro rs2
    unfold RenderState.frame
    by_cases hf : rs2.tb.fresh <;> simp [hf]
  refine ⟨?_, ?_, ?_, ?_⟩
  · rw [frameAfter, hb, TripleBuffer.fresh_runEvents]
  · intro hfalse
    have h1 : (frameAfter rs evs).1 = (rs.tb.runEvents evs).fresh := by
      rw [frameAfter, hb]
    have hfr : (rs.tb.runEvents evs).fresh = false := by
      rw [← h1, hfalse]
    rw [frameAfter]
    unfold RenderState.frame
    simp [hfr]
  · rw [frameAfter, hb, TripleBuffer.runEvents_append]
    rfl
  · rw [frameAfter, TripleBuffer.runEvents_append]
    simp [TripleBuffer.runEvents, TripleBuffer.applyEvent, RenderState.frame,
      TripleBuffer.postNewValue, TripleBuffer.writeSlot, TripleBuffer.lockStep,
      TripleBuffer.getLockedValue]
